import Mathlib

/-
Shallow embedding of `src/index.ts` of the react-native-cli-bump-version
repository, together with theorems settling the frozen claims about it.

Strings are modelled as `List Char`.  JavaScript numbers appearing in the
program are integral throughout (versions, build counters); they are modelled
as `Option Int`, with `none` playing the role of `NaN` (and of `undefined`
coerced into arithmetic).  Exceptions are modelled with `Except JsErr`.
-/

set_option maxHeartbeats 1000000

/-- Convert a Lean string literal to the character-list representation used
throughout the embedding. -/
def chars (s : String) : List Char := s.data

/-- Whitespace skipped by JavaScript `parseInt` before the number. -/
def isJsWhitespace (c : Char) : Bool :=
  c == ' ' || c == '\t' || c == '\n' || c == '\r' || c == '\x0b' || c == '\x0c' ||
    c == '\u00A0' || c == '\uFEFF'

/-- Numeric value of a decimal digit character. -/
def digitVal (c : Char) : Nat := c.toNat - 48

/-- Value of a non-empty decimal digit string. -/
def digitsToNat (ds : List Char) : Nat := ds.foldl (fun a c => 10 * a + digitVal c) 0

/-- JavaScript `parseInt(s, 10)`: skip leading whitespace, take an optional
sign and then the longest prefix of decimal digits; `NaN` (here `none`) when
that prefix is empty. -/
def jsParseInt (s : List Char) : Option Int :=
  let s1 := s.dropWhile isJsWhitespace
  let signAndRest : Int × List Char :=
    match s1 with
    | [] => (1, [])
    | c :: r => if c = '-' then (-1, r) else if c = '+' then (1, r) else (1, c :: r)
  let ds := signAndRest.2.takeWhile Char.isDigit
  if ds = [] then none else some (signAndRest.1 * (digitsToNat ds : Int))

/-- JavaScript number-to-string conversion for the integral values this
program produces (`NaN` prints as `"NaN"`). -/
def intToChars (n : Int) : List Char :=
  if n < 0 then '-' :: Nat.toDigits 10 n.natAbs else Nat.toDigits 10 n.toNat

/-- Interpolation of a JS number (`Option Int`, `none` = `NaN`) into a string. -/
def jsNumToChars (o : Option Int) : List Char :=
  match o with
  | none => chars "NaN"
  | some n => intToChars n

/-- `parseDecimal` from the source: `parseInt(it, 10)`. -/
def parseDecimal (it : List Char) : Option Int := jsParseInt it

/-- `parseDecimal` applied to a possibly-`undefined` value: JavaScript coerces
`undefined` to the string `"undefined"`, which parses to `NaN`. -/
def parseDecimalOpt (v : Option (List Char)) : Option Int :=
  parseDecimal (v.getD (chars "undefined"))

/-- `split(".")` from the source, specialised to the single-character
separator it is used with. -/
def splitDot : List Char → List (List Char)
  | [] => [[]]
  | c :: r =>
    if c = '.' then [] :: splitDot r
    else
      match splitDot r with
      | h :: t => (c :: h) :: t
      | [] => [[c]]

/-- `parseSemVer` from the source: split on `"."`, then `parseInt` each
component. -/
def parseSemVer (s : List Char) : List (Option Int) := (splitDot s).map parseDecimal

/-- Errors thrown by the embedded program. -/
inductive JsErr where
  | error (msg : List Char)
  | typeError (msg : List Char)
  | enoent (path : List Char)
  | moduleNotFound (path : List Char)
  | syntaxError (msg : List Char)
deriving DecidableEq

deriving instance DecidableEq for Except

/-- Template-literal interpolation of a string that may be `undefined`. -/
def strOfOpt (o : Option (List Char)) : List Char := o.getD (chars "undefined")

/-- `incrementSemVer` from the source.  At runtime the release kind can be any
string or `undefined` (the CLI layer casts it unchecked), hence
`Option (List Char)`. -/
def incrementSemVer (current : List Char) (type : Option (List Char)) :
    Except JsErr (List Char) :=
  let comps := parseSemVer current
  let major := comps.getD 0 none
  let minor := comps.getD 1 none
  let patch := comps.getD 2 none
  if type = some (chars "major") then
    .ok (List.intercalate (chars ".")
      [jsNumToChars (major.map (· + 1)), jsNumToChars (some 0), jsNumToChars (some 0)])
  else if type = some (chars "minor") then
    .ok (List.intercalate (chars ".")
      [jsNumToChars major, jsNumToChars (minor.map (· + 1)), jsNumToChars (some 0)])
  else if type = some (chars "patch") then
    .ok (List.intercalate (chars ".")
      [jsNumToChars major, jsNumToChars minor, jsNumToChars (patch.map (· + 1))])
  else
    .error (.error (['\''] ++ strOfOpt type ++ ['\''] ++ chars " is not a semver type"))

example : parseSemVer (chars "1.10.6") = [some 1, some 10, some 6] := by decide

example : incrementSemVer (chars "1.10.6") (some (chars "patch")) =
    .ok (chars "1.10.7") := by decide

example : incrementSemVer (chars "1.10.6") (some (chars "major")) =
    .ok (chars "2.0.0") := by decide

example : incrementSemVer (chars "1.10.6") none =
    .error (.error (['\''] ++ chars "undefined" ++ ['\''] ++ chars " is not a semver type")) := by
  decide

/-
Regular-expression machinery.  Each concrete pattern of the source is embedded
as a "local matcher": a function that attempts to match the pattern at the
start of a string, returning the matched text, the value of the (single)
capture group, and the remainder.  `scan` tries the local matcher at every
position from the left, giving JavaScript `exec`'s leftmost-match semantics.
-/

/-- Result of a successful regex search: `pre ++ matched ++ post` is the whole
string and `cap` is the first capture group (`none` = the group is absent). -/
structure RMatch where
  pre : List Char
  matched : List Char
  cap : Option (List Char)
  post : List Char
deriving DecidableEq

/-- A local matcher: match at the start, return (matched, capture, rest). -/
def LMatcher := List Char → Option (List Char × Option (List Char) × List Char)

/-- Strip an exact literal from the front of a string. -/
def dropLit : List Char → List Char → Option (List Char)
  | [], s => some s
  | _ :: _, [] => none
  | p :: ps, c :: cs => if p = c then dropLit ps cs else none

/-- JavaScript `.` (no `s` flag): any character except a line terminator. -/
def isDotChar (c : Char) : Bool :=
  !(c == '\n' || c == '\r' || c == ' ' || c == ' ')

/-- Split a list at the last occurrence of `c`: `l = before ++ c :: after`
with `c` not occurring in `after`. -/
def splitAtLast (c : Char) : List Char → Option (List Char × List Char)
  | [] => none
  | x :: xs =>
    match splitAtLast c xs with
    | some (b, a) => some (x :: b, a)
    | none => if x = c then some ([], xs) else none

/-- Leftmost search: try the local matcher at each position, left to right. -/
def scan (t : LMatcher) : List Char → Option RMatch
  | [] =>
    match t [] with
    | some (m, c, rest) => some ⟨[], m, c, rest⟩
    | none => none
  | ch :: tl =>
    match t (ch :: tl) with
    | some (m, c, rest) => some ⟨[], m, c, rest⟩
    | none => (scan t tl).map fun r => { r with pre := ch :: r.pre }

/-- `matchFirst` from the source.  `reg.exec(value)` yields `null` on no
match; `[].concat(null)` is `[null]`, so destructuring index 1 yields
`undefined` — the function returns normally with `undefined` (`none`) rather
than throwing. -/
def matchFirst (t : LMatcher) (value : List Char) : Option (List Char) :=
  match scan t value with
  | none => none
  | some r => r.cap

/-- ECMAScript `GetSubstitution` for replacement templates: `$$`, `$&`,
a backtick form, `$'` and `$n` references.  `m`/`pre`/`post` are the matched
text and its context, `caps` the capture list.  (For the global-replace case
the context is taken around each individual match; the program only ever uses
`$`-free replacement strings, as the theorems' hypotheses record.) -/
def getSubstitution (m pre post : List Char) (caps : List (Option (List Char))) :
    List Char → List Char
  | [] => []
  | c :: rest =>
    if c = '$' then
      match rest with
      | [] => ['$']
      | c1 :: r =>
        if c1 = '$' then '$' :: getSubstitution m pre post caps r
        else if c1 = '&' then m ++ getSubstitution m pre post caps r
        else if c1 = '`' then pre ++ getSubstitution m pre post caps r
        else if c1 = '\'' then post ++ getSubstitution m pre post caps r
        else if c1.isDigit then
          match r with
          | c2 :: r2 =>
            if c2.isDigit then
              let n2 := 10 * digitVal c1 + digitVal c2
              if 1 ≤ n2 ∧ n2 ≤ caps.length then
                ((caps.get? (n2 - 1)).getD none).getD [] ++
                  getSubstitution m pre post caps r2
              else if 1 ≤ digitVal c1 ∧ digitVal c1 ≤ caps.length then
                ((caps.get? (digitVal c1 - 1)).getD none).getD [] ++
                  getSubstitution m pre post caps (c2 :: r2)
              else '$' :: c1 :: getSubstitution m pre post caps (c2 :: r2)
            else if 1 ≤ digitVal c1 ∧ digitVal c1 ≤ caps.length then
              ((caps.get? (digitVal c1 - 1)).getD none).getD [] ++
                getSubstitution m pre post caps (c2 :: r2)
            else '$' :: c1 :: getSubstitution m pre post caps (c2 :: r2)
          | [] =>
            if 1 ≤ digitVal c1 ∧ digitVal c1 ≤ caps.length then
              ((caps.get? (digitVal c1 - 1)).getD none).getD [] ++
                getSubstitution m pre post caps []
            else '$' :: c1 :: getSubstitution m pre post caps []
        else '$' :: c1 :: getSubstitution m pre post caps r
    else c :: getSubstitution m pre post caps rest

/-- `String.prototype.replace` with a non-global pattern: replace the first
match, expanding `$`-references in the template. -/
def replaceFirst (t : LMatcher) (tmpl : List Char) (s : List Char) : List Char :=
  match scan t s with
  | none => s
  | some r => r.pre ++ getSubstitution r.matched r.pre r.post [r.cap] tmpl ++ r.post

/-- `String.prototype.replace` with a global pattern: replace all
(non-overlapping, left to right) matches.  The fuel argument bounds the number
of replacements; every pattern the program uses matches at least one
character, so `s.length` suffices. -/
def replaceAllAux (t : LMatcher) (tmpl : List Char) : Nat → List Char → List Char
  | 0, s => s
  | fuel + 1, s =>
    match scan t s with
    | none => s
    | some r =>
      r.pre ++ getSubstitution r.matched r.pre r.post [r.cap] tmpl ++
        replaceAllAux t tmpl fuel r.post

def replaceAll (t : LMatcher) (tmpl : List Char) (s : List Char) : List Char :=
  replaceAllAux t tmpl s.length s

/-- Local matcher for the iOS counter pattern (one capture group on the
digits; the `;` terminator forces the greedy `\d+` to stop exactly before
it). -/
def tryCodePBX : LMatcher := fun s =>
  match dropLit (chars "CURRENT_PROJECT_VERSION = ") s with
  | none => none
  | some r =>
    let ds := r.takeWhile Char.isDigit
    if ds = [] then none
    else
      match r.dropWhile Char.isDigit with
      | ';' :: rest => some (chars "CURRENT_PROJECT_VERSION = " ++ ds ++ [';'], some ds, rest)
      | _ => none

/-- Local matcher for the iOS marketing-version pattern.  The greedy `(.*)`
runs to the end of the line and backtracks to the last `;` there. -/
def tryMarketing : LMatcher := fun s =>
  match dropLit (chars "MARKETING_VERSION = ") s with
  | none => none
  | some r =>
    let line := r.takeWhile isDotChar
    match splitAtLast ';' line with
    | none => none
    | some (v, after) =>
      some (chars "MARKETING_VERSION = " ++ v ++ [';'], some v,
        after ++ r.dropWhile isDotChar)

/-- Local matcher for the Android counter pattern (no terminator after the
digits). -/
def tryVersionCode : LMatcher := fun s =>
  match dropLit (chars "versionCode ") s with
  | none => none
  | some r =>
    let ds := r.takeWhile Char.isDigit
    if ds = [] then none
    else some (chars "versionCode " ++ ds, some ds, r.dropWhile Char.isDigit)

/-- One quoted alternative of the Android name pattern: a quote, greedy `.*`
backtracking to the last same-kind quote on the line. -/
def tryQuoted (q : Char) (r : List Char) : Option (List Char × Option (List Char) × List Char) :=
  match r with
  | c :: r' =>
    if c = q then
      let line := r'.takeWhile isDotChar
      match splitAtLast q line with
      | none => none
      | some (inner, after) =>
        some (q :: inner ++ [q], some (q :: inner ++ [q]), after ++ r'.dropWhile isDotChar)
    else none
  | [] => none

/-- Local matcher for the Android name pattern; the single-quote alternative
is tried before the double-quote one, and the capture group includes the
quote characters. -/
def tryVersionName : LMatcher := fun s =>
  match dropLit (chars "versionName ") s with
  | none => none
  | some r =>
    match tryQuoted '\'' r with
    | some (m, c, rest) => some (chars "versionName " ++ m, c, rest)
    | none =>
      match tryQuoted '"' r with
      | some (m, c, rest) => some (chars "versionName " ++ m, c, rest)
      | none => none

/-- A character that is neither kind of quote. -/
def notQuote (c : Char) : Bool := !(c == '"' || c == '\'')

/-- Local matcher for the quote-content pattern (one-or-more non-quote
characters, no capture group). -/
def tryQuotes : LMatcher := fun s =>
  let run := s.takeWhile notQuote
  if run = [] then none else some (run, none, s.dropWhile notQuote)

example :
    scan tryCodePBX (chars "x = 1;\nCURRENT_PROJECT_VERSION = 24;\ny") =
      some ⟨chars "x = 1;\n", chars "CURRENT_PROJECT_VERSION = 24;", some (chars "24"),
        chars "\ny"⟩ := by decide

example :
    scan tryMarketing (chars "MARKETING_VERSION = 1.0;x;\nz") =
      some ⟨[], chars "MARKETING_VERSION = 1.0;x;", some (chars "1.0;x"), chars "\nz"⟩ := by
  decide

example :
    matchFirst tryVersionName (chars "versionName \"1.2.3\"\n") =
      some (chars "\"1.2.3\"") := by decide

example :
    replaceAll tryCodePBX (chars "CURRENT_PROJECT_VERSION = 25;")
      (chars "CURRENT_PROJECT_VERSION = 3;\nCURRENT_PROJECT_VERSION = 9;") =
      chars "CURRENT_PROJECT_VERSION = 25;\nCURRENT_PROJECT_VERSION = 25;" := by decide

example : matchFirst tryCodePBX (chars "hello") = none := by decide

/-
File-system and console model.  `files` is an association list from paths to
contents; `writes` is the trace of every `writeFile` call, in order.
-/

/-- The outside world: on-disk files, console output, and the write trace. -/
structure World where
  files : List (List Char × List Char)
  log : List (List Char)
  writes : List (List Char × List Char)
deriving DecidableEq

/-- First-match association lookup. -/
def lookupFile (fs : List (List Char × List Char)) (p : List Char) :
    Option (List Char) :=
  match fs with
  | [] => none
  | (q, c) :: rest => if q = p then some c else lookupFile rest p

/-- Update the first binding of `p`, or append one. -/
def setAssoc (p c : List Char) : List (List Char × List Char) →
    List (List Char × List Char)
  | [] => [(p, c)]
  | (q, c') :: rest => if q = p then (q, c) :: rest else (q, c') :: setAssoc p c rest

/-- `fs.readFileSync(path, "utf8")`: the file's text, or an ENOENT error. -/
def readFileSync (p : List Char) (w : World) : Except JsErr (List Char) :=
  match lookupFile w.files p with
  | some c => .ok c
  | none => .error (.enoent p)

/-- `writeFile` from the source (`fs.writeFileSync`), recorded in the trace. -/
def writeFileW (p c : List Char) (w : World) : World :=
  { files := setAssoc p c w.files, log := w.log, writes := w.writes ++ [(p, c)] }

/-- `console.log`. -/
def consoleLog (line : List Char) (w : World) : World :=
  { w with log := w.log ++ [line] }

/-
`BaseFileManager`: lazy single read into a cached buffer, conditional write.
The caller-supplied path thunk is modelled by its outcome
(`Except JsErr (List Char)`, since the CLI-layer thunks can throw), and
`pathCalls` counts how often the manager invokes it.
-/

/-- The mutable state of a `BaseFileManager`. -/
structure Mgr where
  content : Option (List Char)
  pathCalls : Nat
deriving DecidableEq

/-- `BaseFileManager.read`: return the cached buffer, loading it (resolving
the path) only when the cache is still `null`. -/
def mgrRead (basePath : Except JsErr (List Char)) (m : Mgr) (w : World) :
    Except JsErr (List Char) × Mgr × World :=
  match m.content with
  | some c => (.ok c, m, w)
  | none =>
    let m' : Mgr := { m with pathCalls := m.pathCalls + 1 }
    match basePath with
    | .error e => (.error e, m', w)
    | .ok p =>
      match readFileSync p w with
      | .error e => (.error e, m', w)
      | .ok c => (.ok c, { m' with content := some c }, w)

/-- `BaseFileManager.write`: `if (this.content) writeFile(this.basePath(),
this.content)` — the truthiness test skips both a never-populated buffer and
a buffer holding the empty string. -/
def mgrWrite (basePath : Except JsErr (List Char)) (m : Mgr) (w : World) :
    Except JsErr Unit × Mgr × World :=
  match m.content with
  | none => (.ok (), m, w)
  | some c =>
    if c = [] then (.ok (), m, w)
    else
      let m' : Mgr := { m with pathCalls := m.pathCalls + 1 }
      match basePath with
      | .error e => (.error e, m', w)
      | .ok p => (.ok (), m', writeFileW p c w)

/-
`PBXManager` (iOS project descriptor).
-/

/-- `PBXManager.bumpProjectVersion`: match the counter pattern, add one
(`NaN` propagates silently if there was no match), rewrite every occurrence
(the pattern carries the global flag), and return (current, next). -/
def pbxBumpProjectVersion (basePath : Except JsErr (List Char)) (m : Mgr) (w : World) :
    Except JsErr (Option Int × Option Int) × Mgr × World :=
  match mgrRead basePath m w with
  | (.error e, m, w) => (.error e, m, w)
  | (.ok currentFile, m, w) =>
    let currentCode := parseDecimalOpt (matchFirst tryCodePBX currentFile)
    let nextCode := currentCode.map (· + 1)
    let content' := replaceAll tryCodePBX
      (chars "CURRENT_PROJECT_VERSION = " ++ jsNumToChars nextCode ++ [';']) currentFile
    (.ok (currentCode, nextCode), { m with content := some content' }, w)

/-- `PBXManager.setMarketingVersion`: rewrite every marketing-version
assignment to the new (unquoted) value; return (current, next).  A missing
match leaves `current` undefined and the buffer unchanged — no failure. -/
def pbxSetMarketingVersion (nextVersion : List Char)
    (basePath : Except JsErr (List Char)) (m : Mgr) (w : World) :
    Except JsErr (Option (List Char) × List Char) × Mgr × World :=
  match mgrRead basePath m w with
  | (.error e, m, w) => (.error e, m, w)
  | (.ok currentFile, m, w) =>
    let currentVersion := matchFirst tryMarketing currentFile
    let content' := replaceAll tryMarketing
      (chars "MARKETING_VERSION = " ++ nextVersion ++ [';']) currentFile
    (.ok (currentVersion, nextVersion), { m with content := some content' }, w)

/-- `PBXManager.getCurrentMarketingVersion`. -/
def pbxGetCurrentMarketingVersion (basePath : Except JsErr (List Char)) (m : Mgr)
    (w : World) : Except JsErr (Option (List Char)) × Mgr × World :=
  match mgrRead basePath m w with
  | (.error e, m, w) => (.error e, m, w)
  | (.ok currentFile, m, w) => (.ok (matchFirst tryMarketing currentFile), m, w)

/-- Unary `+` (JavaScript `Number()` conversion) restricted to the values the
program feeds it: a captured all-digit string, or `undefined` (`NaN`). -/
def jsUnaryPlus (v : Option (List Char)) : Option Int :=
  match v with
  | none => none
  | some s =>
    let s1 := s.dropWhile isJsWhitespace
    if s1 = [] then some 0
    else if s1.all Char.isDigit then some (digitsToNat s1 : Int)
    else none

/-- `PBXManager.getCurrentProjectVersion` (`+matchFirst(...)`). -/
def pbxGetCurrentProjectVersion (basePath : Except JsErr (List Char)) (m : Mgr)
    (w : World) : Except JsErr (Option Int) × Mgr × World :=
  match mgrRead basePath m w with
  | (.error e, m, w) => (.error e, m, w)
  | (.ok currentFile, m, w) => (.ok (jsUnaryPlus (matchFirst tryCodePBX currentFile)), m, w)

/-
`BuildGradleManager` (Android build file).
-/

/-- `BuildGradleManager.bumpCode`: parse the captured counter, increment,
throw on `NaN` (which only arises when the pattern did not match), rewrite
the first occurrence, and return (current, next). -/
def gradleBumpCode (basePath : Except JsErr (List Char)) (m : Mgr) (w : World) :
    Except JsErr (Option Int × Option Int) × Mgr × World :=
  match mgrRead basePath m w with
  | (.error e, m, w) => (.error e, m, w)
  | (.ok currentFile, m, w) =>
    let versionMatch := matchFirst tryVersionCode currentFile
    let current := parseDecimalOpt versionMatch
    let next := current.map (· + 1)
    match next with
    | none =>
      (.error (.error (chars "Invalid versionCode version parsed (" ++
        strOfOpt versionMatch ++ [')'])), m, w)
    | some _ =>
      let content' := replaceFirst tryVersionCode
        (chars "versionCode " ++ jsNumToChars next) currentFile
      (.ok (current, next), { m with content := some content' }, w)

/-- `BuildGradleManager.setVersionName`: replace the inner content of the
quoted current value, then rewrite the first name assignment.  When the name
pattern has no match, `current` is `undefined` and `current.replace` throws a
TypeError. -/
def gradleSetVersionName (next : List Char) (basePath : Except JsErr (List Char))
    (m : Mgr) (w : World) :
    Except JsErr (List Char × List Char) × Mgr × World :=
  match mgrRead basePath m w with
  | (.error e, m, w) => (.error e, m, w)
  | (.ok currentFile, m, w) =>
    match matchFirst tryVersionName currentFile with
    | none =>
      (.error (.typeError (chars "Cannot read properties of undefined (reading " ++
        ['\''] ++ chars "replace" ++ ['\''] ++ [')'])), m, w)
    | some current =>
      let newVersionName := replaceFirst tryQuotes next current
      let content' := replaceFirst tryVersionName
        (chars "versionName " ++ newVersionName) currentFile
      (.ok (current, next), { m with content := some content' }, w)

/-- `BuildGradleManager.getVersionName` (strips every quote character from
the captured value; throws a TypeError when the pattern has no match). -/
def gradleGetVersionName (basePath : Except JsErr (List Char)) (m : Mgr) (w : World) :
    Except JsErr (List Char) × Mgr × World :=
  match mgrRead basePath m w with
  | (.error e, m, w) => (.error e, m, w)
  | (.ok currentFile, m, w) =>
    match matchFirst tryVersionName currentFile with
    | none =>
      (.error (.typeError (chars "Cannot read properties of undefined (reading " ++
        ['\''] ++ chars "replace" ++ ['\''] ++ [')'])), m, w)
    | some current => (.ok (current.filter notQuote), m, w)

/-- `BuildGradleManager.getVersionCode`. -/
def gradleGetVersionCode (basePath : Except JsErr (List Char)) (m : Mgr) (w : World) :
    Except JsErr (Option Int) × Mgr × World :=
  match mgrRead basePath m w with
  | (.error e, m, w) => (.error e, m, w)
  | (.ok currentFile, m, w) =>
    (.ok (parseDecimalOpt (matchFirst tryVersionCode currentFile)), m, w)

example :
    (gradleSetVersionName (chars "1.2.4") (.ok (chars "/g"))
        ⟨some (chars "versionName '1.2.3'\n"), 0⟩ ⟨[], [], []⟩).1 =
      .ok (chars "'1.2.3'", chars "1.2.4") := by decide

example :
    (gradleSetVersionName (chars "1.2.4") (.ok (chars "/g"))
        ⟨some (chars "versionName '1.2.3'\n"), 0⟩ ⟨[], [], []⟩).2.1.content =
      some (chars "versionName '1.2.4'\n") := by decide

/-
`PackageJSONManager`.  The manifest is modelled as a flat JSON object with
string values (the shape every package manifest this tool touches has): the
parsed record is the list of its key/value pairs in file order.  `JSON.parse`
is embedded for exactly that fragment (strings without escape sequences) and
rejects everything else with a syntax error; `JSON.stringify(content, null,
2)` is embedded for the same fragment.
-/

/-- The parsed manifest record. -/
def Pkg := List (List Char × List Char)

deriving instance DecidableEq for Pkg

/-- Skip JSON whitespace. -/
def skipWs (s : List Char) : List Char :=
  s.dropWhile fun c => c == ' ' || c == '\t' || c == '\n' || c == '\r'

/-- Parse a JSON string literal (no escape sequences): the inner text and the
remainder after the closing quote. -/
def parseJsonString (s : List Char) : Option (List Char × List Char) :=
  match s with
  | '"' :: r =>
    let inner := r.takeWhile fun c => !(c == '"' || c == '\\')
    match r.dropWhile (fun c => !(c == '"' || c == '\\')) with
    | '"' :: rest => some (inner, rest)
    | _ => none
  | _ => none

/-- Parse the members of a flat string-valued JSON object, after `\x7b`. -/
def parsePkgMembers : Nat → List Char → Option (Pkg × List Char)
  | 0, _ => none
  | fuel + 1, s =>
    match parseJsonString (skipWs s) with
    | none => none
    | some (key, r1) =>
      match skipWs r1 with
      | ':' :: r2 =>
        match parseJsonString (skipWs r2) with
        | none => none
        | some (value, r3) =>
          match skipWs r3 with
          | ',' :: r4 =>
            match parsePkgMembers fuel r4 with
            | none => none
            | some (rest, r5) => some ((key, value) :: rest, r5)
          | '}' :: r4 => some ([(key, value)], r4)
          | _ => none
      | _ => none

/-- `JSON.parse` on the flat string-object fragment. -/
def parsePkgJson (raw : List Char) : Except JsErr Pkg :=
  match skipWs raw with
  | '{' :: r =>
    match skipWs r with
    | '}' :: rest => if (skipWs rest).isEmpty then .ok [] else .error (.syntaxError raw)
    | _ =>
      match parsePkgMembers r.length r with
      | some (pkg, rest) => if (skipWs rest).isEmpty then .ok pkg else .error (.syntaxError raw)
      | none => .error (.syntaxError raw)
  | _ => .error (.syntaxError raw)

/-- `JSON.stringify(content, null, 2)` on the same fragment. -/
def stringifyPkg (p : Pkg) : List Char :=
  match p with
  | [] => chars "\x7b\x7d"
  | _ =>
    ['{', '\n'] ++
      (List.intercalate (chars ",\n")
        (p.map fun kv => chars "  \"" ++ kv.1 ++ chars "\": \"" ++ kv.2 ++ ['"'])) ++
      ['\n', '}']

/-- Property read `content.version` (`undefined` when the key is absent). -/
def pkgLookup (p : Pkg) : Option (List Char) :=
  match p with
  | [] => none
  | (k, v) :: rest => if k = chars "version" then some v else pkgLookup rest

/-- Property write `content.version = next` (updates the first binding, or
appends a fresh one as JavaScript does). -/
def pkgSet (next : List Char) : Pkg → Pkg
  | [] => [(chars "version", next)]
  | (k, v) :: rest =>
    if k = chars "version" then (k, next) :: rest else (k, v) :: pkgSet next rest

/-- The mutable state of the `PackageJSONManager`. -/
structure PkgMgr where
  content : Option Pkg
  pathCalls : Nat
deriving DecidableEq

/-- `PackageJSONManager.read`: lazy `require.resolve` + `readFileSync` +
`JSON.parse`.  `require.resolve` of an absolute file path is the path itself
when the file exists, and a module-not-found error otherwise.  The path thunk
(built by the constructor from `root`) cannot throw. -/
def pkgRead (basePath : List Char) (pm : PkgMgr) (w : World) :
    Except JsErr Pkg × PkgMgr × World :=
  match pm.content with
  | some c => (.ok c, pm, w)
  | none =>
    let pm' : PkgMgr := { pm with pathCalls := pm.pathCalls + 1 }
    match lookupFile w.files basePath with
    | none => (.error (.moduleNotFound basePath), pm', w)
    | some raw =>
      match parsePkgJson raw with
      | .error e => (.error e, pm', w)
      | .ok pkg => (.ok pkg, { pm' with content := some pkg }, w)

/-- `PackageJSONManager.write` (an object buffer is always truthy). -/
def pkgWrite (basePath : List Char) (pm : PkgMgr) (w : World) : PkgMgr × World :=
  match pm.content with
  | none => (pm, w)
  | some c =>
    ({ pm with pathCalls := pm.pathCalls + 1 }, writeFileW basePath (stringifyPkg c) w)

/-- `PackageJSONManager.getVersion`. -/
def pkgGetVersion (basePath : List Char) (pm : PkgMgr) (w : World) :
    Except JsErr (Option (List Char)) × PkgMgr × World :=
  match pkgRead basePath pm w with
  | (.error e, pm, w) => (.error e, pm, w)
  | (.ok pkg, pm, w) => (.ok (pkgLookup pkg), pm, w)

/-- `PackageJSONManager.setVersion`: read the current value, then mutate the
record; returns (current, next). -/
def pkgSetVersion (next : List Char) (basePath : List Char) (pm : PkgMgr) (w : World) :
    Except JsErr (Option (List Char) × List Char) × PkgMgr × World :=
  match pkgGetVersion basePath pm w with
  | (.error e, pm, w) => (.error e, pm, w)
  | (.ok current, pm, w) =>
    let pm' : PkgMgr := { pm with content := some (pkgSet next (pm.content.getD [])) }
    (.ok (current, next), pm', w)

/-
`ProjectFilesManager` (the orchestrator) and `apiVersioner`.
-/

/-- The `Configs` record.  The two platform path thunks are modelled by their
outcomes (the CLI-layer thunks may throw a missing-configuration error). -/
structure Configs where
  type : Option (List Char)
  semver : Option (List Char)
  skipSemverFor : List (List Char)
  skipCodeFor : List (List Char)
  versionFile : Option (List Char)
  root : List Char
  pbxprojPath : Except JsErr (List Char)
  buildGradlePath : Except JsErr (List Char)
deriving DecidableEq

/-- `path.join(root, name)` for a root without a trailing separator. -/
def pathJoin (root name : List Char) : List Char := root ++ ['/'] ++ name

/-- The orchestrator's state: the configuration and one manager of each kind. -/
structure PFM where
  configs : Configs
  pbx : Mgr
  buildGradle : Mgr
  packageJSON : PkgMgr
deriving DecidableEq

/-- `apiVersioner` / the `ProjectFilesManager` constructor: fresh managers,
the manifest path derived from the root. -/
def apiVersioner (configs : Configs) : PFM :=
  { configs := configs
    pbx := ⟨none, 0⟩
    buildGradle := ⟨none, 0⟩
    packageJSON := ⟨none, 0⟩ }

/-- The manifest manager's path thunk, built by the constructor. -/
def pkgPath (p : PFM) : List Char := pathJoin p.configs.root (chars "package.json")

/-- A JavaScript-falsy string value (`undefined` or the empty string), the
condition under which `if (!type)` fires. -/
def jsFalsyStr (t : Option (List Char)) : Prop := t = none ∨ t = some []

instance (t : Option (List Char)) : Decidable (jsFalsyStr t) := by
  unfold jsFalsyStr; infer_instance

/-- Second half of `ProjectFilesManager.syncSemver`: the unconditional
manifest update and its progress line. -/
def pfmSyncSemverPkg (semverString : List Char) (p : PFM) (w : World) :
    Except JsErr Unit × PFM × World :=
  match pkgSetVersion semverString (pkgPath p) p.packageJSON w with
  | (.error e, pm, w) => (.error e, { p with packageJSON := pm }, w)
  | (.ok (packageCurrent, packageNext), pm, w) =>
    (.ok (), { p with packageJSON := pm },
      consoleLog (chars "package.json: " ++ strOfOpt packageCurrent ++
        chars " -> " ++ packageNext) w)

/-- Android leg of `ProjectFilesManager.syncSemver`. -/
def pfmSyncSemverAndroid (semverString : List Char) (skipSemverFor : List (List Char))
    (p : PFM) (w : World) : Except JsErr Unit × PFM × World :=
  if chars "android" ∈ skipSemverFor then pfmSyncSemverPkg semverString p w
  else
    match gradleSetVersionName semverString p.configs.buildGradlePath p.buildGradle w with
    | (.error e, m, w) => (.error e, { p with buildGradle := m }, w)
    | (.ok (gradleCurrent, gradleNext), m, w) =>
      pfmSyncSemverPkg semverString { p with buildGradle := m }
        (consoleLog (chars "Android gradle.build version: " ++ gradleCurrent ++
          chars " -> " ++ gradleNext) w)

/-- `ProjectFilesManager.syncSemver`. -/
def pfmSyncSemver (semverString : List Char) (p : PFM) (w : World) :
    Except JsErr Unit × PFM × World :=
  let skipSemverFor := p.configs.skipSemverFor
  if chars "ios" ∈ skipSemverFor then pfmSyncSemverAndroid semverString skipSemverFor p w
  else
    match pbxSetMarketingVersion semverString p.configs.pbxprojPath p.pbx w with
    | (.error e, m, w) => (.error e, { p with pbx := m }, w)
    | (.ok (pbxCurrent, pbxNext), m, w) =>
      pfmSyncSemverAndroid semverString skipSemverFor { p with pbx := m }
        (consoleLog (chars "iOS project.pbxproj version: " ++ strOfOpt pbxCurrent ++
          chars " -> " ++ pbxNext) w)

/-- Android leg of `ProjectFilesManager.bumpCodes`. -/
def pfmBumpCodesAndroid (skipCodeFor : List (List Char)) (p : PFM) (w : World) :
    Except JsErr Unit × PFM × World :=
  if chars "android" ∈ skipCodeFor then (.ok (), p, w)
  else
    match gradleBumpCode p.configs.buildGradlePath p.buildGradle w with
    | (.error e, m, w) => (.error e, { p with buildGradle := m }, w)
    | (.ok (gradleCurrent, gradleNext), m, w) =>
      (.ok (), { p with buildGradle := m },
        consoleLog (chars "Android build.gradle code: " ++ jsNumToChars gradleCurrent ++
          chars " -> " ++ jsNumToChars gradleNext) w)

/-- `ProjectFilesManager.bumpCodes`. -/
def pfmBumpCodes (p : PFM) (w : World) : Except JsErr Unit × PFM × World :=
  let skipCodeFor := p.configs.skipCodeFor
  if chars "ios" ∈ skipCodeFor then pfmBumpCodesAndroid skipCodeFor p w
  else
    match pbxBumpProjectVersion p.configs.pbxprojPath p.pbx w with
    | (.error e, m, w) => (.error e, { p with pbx := m }, w)
    | (.ok (pbxCurrent, pbxNext), m, w) =>
      pfmBumpCodesAndroid skipCodeFor { p with pbx := m }
        (consoleLog (chars "iOS project.pbxproj code: " ++ jsNumToChars pbxCurrent ++
          chars " -> " ++ jsNumToChars pbxNext) w)

/-- `const next = semver ?? incrementSemVer(current, type ?? "minor")`.  When
the manifest has no `version` field, `current` is `undefined` and the `split`
inside `incrementSemVer` throws a TypeError. -/
def jsNext (cfg : Configs) (current : Option (List Char)) : Except JsErr (List Char) :=
  match cfg.semver with
  | some s => .ok s
  | none =>
    match current with
    | none =>
      .error (.typeError (chars "Cannot read properties of undefined (reading " ++
        ['\''] ++ chars "split" ++ ['\''] ++ [')']))
    | some cur => incrementSemVer cur (some (cfg.type.getD (chars "minor")))

/-- The first half of `ProjectFilesManager.dryRun` (everything before the
version-sync block): read the manifest version, compute the target version,
bump the build counters unless globally skipped.  Returns the target. -/
def pfmDryRunPhase1 (p : PFM) (w : World) : Except JsErr (List Char) × PFM × World :=
  match pkgGetVersion (pkgPath p) p.packageJSON w with
  | (.error e, pm, w) => (.error e, { p with packageJSON := pm }, w)
  | (.ok current, pm, w) =>
    let p := { p with packageJSON := pm }
    match jsNext p.configs current with
    | .error e => (.error e, p, w)
    | .ok next =>
      if chars "all" ∈ p.configs.skipCodeFor then (.ok next, p, w)
      else
        match pfmBumpCodes p w with
        | (.error e, p, w) => (.error e, p, w)
        | (.ok _, p, w) => (.ok next, p, w)

/-- `ProjectFilesManager.dryRun`: phase 1, then — unless version sync is
globally skipped — the hard missing-kind check followed by `syncSemver`.
Returns `this`. -/
def pfmDryRun (p : PFM) (w : World) : Except JsErr PFM × PFM × World :=
  match pfmDryRunPhase1 p w with
  | (.error e, p', w') => (.error e, p', w')
  | (.ok next, p', w') =>
    if chars "all" ∈ p.configs.skipSemverFor then (.ok p', p', w')
    else if jsFalsyStr p.configs.type then
      (.error (.error (chars "SemVer type not specified")), p', w')
    else
      match pfmSyncSemver next p' w' with
      | (.error e, p'', w'') => (.error e, p'', w'')
      | (.ok _, p'', w'') => (.ok p'', p'', w'')

/-- `JSON.stringify(info, null, 2)` for the summary record.  A string field
holding `undefined` is omitted entirely; a `NaN` number serialises as
`null`. -/
def stringifyInfo (androidName : List Char) (androidCode : Option Int)
    (iosName : Option (List Char)) (iosCode : Option Int) : List Char :=
  let numStr : Option Int → List Char := fun o =>
    match o with
    | none => chars "null"
    | some n => intToChars n
  let iosFields : List (List Char) :=
    (match iosName with
     | none => []
     | some v => [chars "    \"versionName\": \"" ++ v ++ ['"']]) ++
      [chars "    \"versionCode\": " ++ numStr iosCode]
  chars "\x7b\n  \"android\": \x7b\n    \"versionName\": \"" ++ androidName ++
    chars "\",\n    \"versionCode\": " ++ numStr androidCode ++
    chars "\n  \x7d,\n  \"ios\": \x7b\n" ++
    List.intercalate (chars ",\n") iosFields ++
    chars "\n  \x7d\n\x7d"

/-- `ProjectFilesManager.saveVersionFile`: assemble the summary (evaluating
the four accessors in object-literal order, each of which may throw), write
it under the root, and log the path. -/
def pfmSaveVersionFile (versionFile : List Char) (p : PFM) (w : World) :
    Except JsErr Unit × PFM × World :=
  match gradleGetVersionName p.configs.buildGradlePath p.buildGradle w with
  | (.error e, m, w) => (.error e, { p with buildGradle := m }, w)
  | (.ok androidName, m, w) =>
    let p := { p with buildGradle := m }
    match gradleGetVersionCode p.configs.buildGradlePath p.buildGradle w with
    | (.error e, m, w) => (.error e, { p with buildGradle := m }, w)
    | (.ok androidCode, m, w) =>
      let p := { p with buildGradle := m }
      match pbxGetCurrentMarketingVersion p.configs.pbxprojPath p.pbx w with
      | (.error e, m, w) => (.error e, { p with pbx := m }, w)
      | (.ok iosName, m, w) =>
        let p := { p with pbx := m }
        match pbxGetCurrentProjectVersion p.configs.pbxprojPath p.pbx w with
        | (.error e, m, w) => (.error e, { p with pbx := m }, w)
        | (.ok iosCode, m, w) =>
          let p := { p with pbx := m }
          let filePath := pathJoin p.configs.root versionFile
          let w := writeFileW filePath (stringifyInfo androidName androidCode iosName iosCode) w
          (.ok (), p, consoleLog (chars "Version file saved at: " ++ filePath) w)

/-- `ProjectFilesManager.run`: `dryRun`, then the three writes, then the
optional summary file (`versionFile && this.saveVersionFile(versionFile)` —
skipped when the name is absent or the empty string). -/
def pfmRun (p : PFM) (w : World) : Except JsErr Unit × PFM × World :=
  match pfmDryRun p w with
  | (.error e, p, w) => (.error e, p, w)
  | (.ok _, p, w) =>
    match mgrWrite p.configs.pbxprojPath p.pbx w with
    | (.error e, m, w) => (.error e, { p with pbx := m }, w)
    | (.ok _, m, w) =>
      let p := { p with pbx := m }
      match mgrWrite p.configs.buildGradlePath p.buildGradle w with
      | (.error e, m, w) => (.error e, { p with buildGradle := m }, w)
      | (.ok _, m, w) =>
        let p := { p with buildGradle := m }
        let pw := pkgWrite (pkgPath p) p.packageJSON w
        let p := { p with packageJSON := pw.1 }
        let w := pw.2
        match p.configs.versionFile with
        | none => (.ok (), p, w)
        | some vf => if vf = [] then (.ok (), p, w) else pfmSaveVersionFile vf p w

/-
Helper lemmas.
-/

theorem intToChars_zero : intToChars 0 = ['0'] := by decide

theorem chars_dot : chars "." = ['.'] := rfl

theorem chars_dot0 : chars ".0" = ['.', '0'] := rfl

theorem chars_dot00 : chars ".0.0" = ['.', '0', '.', '0'] := rfl

/-
The claims.
-/

/-- C1: for every version string of the form `<major>.<minor>.<patch>` with
each component parseable as a base-10 integer, `incrementSemVer` returns
`{major+1}.0.0` for major, `{major}.{minor+1}.0` for minor and
`{major}.{minor}.{patch+1}` for patch — exactly one component increases by 1
and all lower-order components reset to 0, with patch preserving major and
minor. -/
theorem C1_incrementSemVer_valid (V : List Char) (a b c : Int)
    (h : parseSemVer V = [some a, some b, some c]) :
    incrementSemVer V (some (chars "major")) = .ok (intToChars (a + 1) ++ chars ".0.0") ∧
    incrementSemVer V (some (chars "minor")) =
      .ok (intToChars a ++ chars "." ++ intToChars (b + 1) ++ chars ".0") ∧
    incrementSemVer V (some (chars "patch")) =
      .ok (intToChars a ++ chars "." ++ intToChars b ++ chars "." ++ intToChars (c + 1)) := by
  refine ⟨?_, ?_, ?_⟩ <;>
    (unfold incrementSemVer; rw [h];
     simp [List.intercalate, List.intersperse, jsNumToChars, intToChars_zero, chars_dot,
       chars_dot0, chars_dot00,
       show chars "minor" ≠ chars "major" by decide,
       show chars "patch" ≠ chars "major" by decide,
       show chars "patch" ≠ chars "minor" by decide])

theorem C1_incrementSemVer_valid_witness :
    parseSemVer (chars "1.10.6") = [some 1, some 10, some 6] ∧
    (incrementSemVer (chars "1.10.6") (some (chars "major")) =
        .ok (intToChars (1 + 1) ++ chars ".0.0") ∧
      incrementSemVer (chars "1.10.6") (some (chars "minor")) =
        .ok (intToChars 1 ++ chars "." ++ intToChars (10 + 1) ++ chars ".0") ∧
      incrementSemVer (chars "1.10.6") (some (chars "patch")) =
        .ok (intToChars 1 ++ chars "." ++ intToChars 10 ++ chars "." ++ intToChars (6 + 1))) :=
  ⟨by decide, C1_incrementSemVer_valid (chars "1.10.6") 1 10 6 (by decide)⟩

/-- C8: for every version string and every release-kind argument that is none
of `major`/`minor`/`patch` (including `undefined`), `incrementSemVer` throws
the invalid-release-kind error and returns no version string. -/
theorem C8_incrementSemVer_invalid_kind (V : List Char) (ty : Option (List Char))
    (h1 : ty ≠ some (chars "major")) (h2 : ty ≠ some (chars "minor"))
    (h3 : ty ≠ some (chars "patch")) :
    incrementSemVer V ty =
      .error (.error (['\''] ++ strOfOpt ty ++ ['\''] ++ chars " is not a semver type")) := by
  unfold incrementSemVer
  simp [h1, h2, h3]

theorem C8_incrementSemVer_invalid_kind_witness :
    ((none : Option (List Char)) ≠ some (chars "major") ∧
      (none : Option (List Char)) ≠ some (chars "minor") ∧
      (none : Option (List Char)) ≠ some (chars "patch")) ∧
    incrementSemVer (chars "1.2.3") none =
      .error (.error (['\''] ++ strOfOpt none ++ ['\''] ++ chars " is not a semver type")) :=
  ⟨⟨by decide, by decide, by decide⟩,
    C8_incrementSemVer_invalid_kind (chars "1.2.3") none (by decide) (by decide) (by decide)⟩

theorem parseDecimalOpt_none : parseDecimalOpt none = none := by decide

theorem matchFirst_of_scan_none (t : LMatcher) (v : List Char) (h : scan t v = none) :
    matchFirst t v = none := by
  simp [matchFirst, h]

theorem replaceAllAux_of_scan_none (t : LMatcher) (tmpl : List Char) (n : Nat)
    (s : List Char) (h : scan t s = none) : replaceAllAux t tmpl n s = s := by
  cases n with
  | zero => rfl
  | succ n => simp [replaceAllAux, h]

theorem replaceAll_of_scan_none (t : LMatcher) (tmpl : List Char) (s : List Char)
    (h : scan t s = none) : replaceAll t tmpl s = s :=
  replaceAllAux_of_scan_none t tmpl s.length s h

/-- C2 counterexample: on a buffer in which the iOS counter pattern has no
match, `matchFirst` returns `undefined` without failing, and
`PBXManager.bumpProjectVersion` returns normally — `(NaN, NaN)` with the
buffer unchanged — rather than aborting the invocation. -/
theorem C2_no_match_counterexample :
    matchFirst tryCodePBX (chars "hello") = none ∧
    pbxBumpProjectVersion (.ok (chars "/p")) ⟨some (chars "hello"), 0⟩ ⟨[], [], []⟩ =
      (.ok (none, none), ⟨some (chars "hello"), 0⟩, ⟨[], [], []⟩) := by decide

/-- C2 (amended): on a non-matching buffer `matchFirst` returns the
`undefined` sentinel instead of failing.  What happens next depends on the
caller: `bumpProjectVersion` returns normally with `(NaN, NaN)` and leaves
the buffer unchanged, `bumpCode` fails with the invalid-versionCode error,
and `setVersionName` fails with a TypeError; none of them writes to disk. -/
theorem C2_no_match_behaviour (buf next : List Char) (bp : Except JsErr (List Char))
    (k : Nat) (w : World)
    (h1 : scan tryCodePBX buf = none)
    (h2 : scan tryVersionCode buf = none)
    (h3 : scan tryVersionName buf = none) :
    matchFirst tryCodePBX buf = none ∧
    pbxBumpProjectVersion bp ⟨some buf, k⟩ w = (.ok (none, none), ⟨some buf, k⟩, w) ∧
    gradleBumpCode bp ⟨some buf, k⟩ w =
      (.error (.error (chars "Invalid versionCode version parsed (" ++
        strOfOpt none ++ [')'])), ⟨some buf, k⟩, w) ∧
    gradleSetVersionName next bp ⟨some buf, k⟩ w =
      (.error (.typeError (chars "Cannot read properties of undefined (reading " ++
        ['\''] ++ chars "replace" ++ ['\''] ++ [')'])), ⟨some buf, k⟩, w) := by
  refine ⟨matchFirst_of_scan_none _ _ h1, ?_, ?_, ?_⟩
  · simp [pbxBumpProjectVersion, mgrRead, matchFirst_of_scan_none _ _ h1,
      parseDecimalOpt_none, replaceAll_of_scan_none _ _ _ h1]
  · simp [gradleBumpCode, mgrRead, matchFirst_of_scan_none _ _ h2, parseDecimalOpt_none]
  · simp [gradleSetVersionName, mgrRead, matchFirst_of_scan_none _ _ h3]

theorem C2_no_match_behaviour_witness :
    (scan tryCodePBX (chars "hello") = none ∧
      scan tryVersionCode (chars "hello") = none ∧
      scan tryVersionName (chars "hello") = none) ∧
    (matchFirst tryCodePBX (chars "hello") = none ∧
      pbxBumpProjectVersion (.ok (chars "/p")) ⟨some (chars "hello"), 0⟩ ⟨[], [], []⟩ =
        (.ok (none, none), ⟨some (chars "hello"), 0⟩, ⟨[], [], []⟩) ∧
      gradleBumpCode (.ok (chars "/p")) ⟨some (chars "hello"), 0⟩ ⟨[], [], []⟩ =
        (.error (.error (chars "Invalid versionCode version parsed (" ++
          strOfOpt none ++ [')'])), ⟨some (chars "hello"), 0⟩, ⟨[], [], []⟩) ∧
      gradleSetVersionName (chars "1.0.1") (.ok (chars "/p"))
          ⟨some (chars "hello"), 0⟩ ⟨[], [], []⟩ =
        (.error (.typeError (chars "Cannot read properties of undefined (reading " ++
          ['\''] ++ chars "replace" ++ ['\''] ++ [')'])), ⟨some (chars "hello"), 0⟩,
          ⟨[], [], []⟩)) :=
  ⟨⟨by decide, by decide, by decide⟩,
    C2_no_match_behaviour (chars "hello") (chars "1.0.1") (.ok (chars "/p")) 0 ⟨[], [], []⟩
      (by decide) (by decide) (by decide)⟩

theorem lookupFile_setAssoc (p c : List Char) (fs : List (List Char × List Char)) :
    lookupFile (setAssoc p c fs) p = some c := by
  induction fs with
  | nil => simp [setAssoc, lookupFile]
  | cons kv rest ih =>
    obtain ⟨q, c'⟩ := kv
    by_cases h : q = p
    · simp [setAssoc, lookupFile, h]
    · simp [setAssoc, lookupFile, h, ih]

/-- C6 counterexample: a buffer populated by reading an empty file is *not*
written back — `write()` is a no-op on it (the truthiness test treats the
empty string like `null`), contradicting "any populated buffer (including one
loaded from an empty file) is written back". -/
theorem C6_empty_buffer_counterexample :
    mgrRead (.ok (chars "/f")) ⟨none, 0⟩ ⟨[(chars "/f", [])], [], []⟩ =
      (.ok [], ⟨some [], 1⟩, ⟨[(chars "/f", [])], [], []⟩) ∧
    mgrWrite (.ok (chars "/f")) ⟨some [], 1⟩ ⟨[(chars "/f", [])], [], []⟩ =
      (.ok (), ⟨some [], 1⟩, ⟨[(chars "/f", [])], [], []⟩) := by decide

/-- C6 (amended): `write()` persists the buffer if and only if it has been
populated *and* is non-empty: a never-read manager's `write()` is a no-op
that touches no file, a buffer holding the empty string (as loaded from an
empty file) is likewise skipped, and any other populated buffer is written to
the backing path. -/
theorem C6_write_truthy_buffer (pth : List Char) (m : Mgr) (w : World) :
    (m.content = none → mgrWrite (.ok pth) m w = (.ok (), m, w)) ∧
    (m.content = some [] → mgrWrite (.ok pth) m w = (.ok (), m, w)) ∧
    (∀ c, m.content = some c → c ≠ [] →
      (mgrWrite (.ok pth) m w).1 = .ok () ∧
      (mgrWrite (.ok pth) m w).2.2.writes = w.writes ++ [(pth, c)] ∧
      lookupFile (mgrWrite (.ok pth) m w).2.2.files pth = some c) := by
  refine ⟨?_, ?_, ?_⟩
  · intro h; simp [mgrWrite, h]
  · intro h; simp [mgrWrite, h]
  · intro c hc hne
    simp [mgrWrite, hc, hne, writeFileW, lookupFile_setAssoc]

theorem C6_write_truthy_buffer_witness :
    (mgrWrite (.ok (chars "/f")) ⟨some (chars "x"), 0⟩ ⟨[], [], []⟩).1 = .ok () ∧
    (mgrWrite (.ok (chars "/f")) ⟨some (chars "x"), 0⟩ ⟨[], [], []⟩).2.2.writes =
      ([] : List (List Char × List Char)) ++ [(chars "/f", chars "x")] ∧
    lookupFile (mgrWrite (.ok (chars "/f")) ⟨some (chars "x"), 0⟩
        ⟨[], [], []⟩).2.2.files (chars "/f") = some (chars "x") :=
  (C6_write_truthy_buffer (chars "/f") ⟨some (chars "x"), 0⟩ ⟨[], [], []⟩).2.2
    (chars "x") rfl (by decide)

/-- The end-to-end demonstration input: a well-formed manifest, iOS
descriptor and Android build file, with a `patch` release kind and no skips. -/
def demoWorld : World :=
  ⟨[(chars "/app/package.json",
      chars "\x7b\n  \"name\": \"app\",\n  \"version\": \"1.10.6\"\n\x7d"),
    (chars "/ios/project.pbxproj",
      chars "CURRENT_PROJECT_VERSION = 24;\nMARKETING_VERSION = 1.10.6;\n"),
    (chars "/android/app/build.gradle",
      chars "versionCode 23\nversionName \"1.10.6\"\n")], [], []⟩

def demoConfigs : Configs :=
  ⟨some (chars "patch"), none, [], [], none, chars "/app",
    .ok (chars "/ios/project.pbxproj"), .ok (chars "/android/app/build.gradle")⟩

/-- C9 counterexample: over a full `run()` that reads and later writes the
same files, each manager invokes its path-resolution function twice (once on
the lazy first read, once again inside `write()`), not at most once. -/
theorem C9_two_path_calls_counterexample :
    (pfmRun (apiVersioner demoConfigs) demoWorld).2.1.pbx.pathCalls = 2 ∧
    (pfmRun (apiVersioner demoConfigs) demoWorld).2.1.buildGradle.pathCalls = 2 ∧
    (pfmRun (apiVersioner demoConfigs) demoWorld).2.1.packageJSON.pathCalls = 2 := by decide

/-- C9 (amended): the path-resolution function is invoked exactly once by the
first (uncached) read and never by a cached read — hence at most once across
all read/get/bump/set operations — and once more by every `write()` whose
buffer is populated and non-empty; a `run()` that reads and writes a file
therefore resolves its path twice, a never-populated manager's `write()` not
at all. -/
theorem C9_path_calls_per_operation (bp : Except JsErr (List Char)) (m : Mgr) (w : World) :
    (∀ c, m.content = some c → mgrRead bp m w = (.ok c, m, w)) ∧
    (m.content = none → (mgrRead bp m w).2.1.pathCalls = m.pathCalls + 1) ∧
    (m.content = none → mgrWrite bp m w = (.ok (), m, w)) ∧
    (∀ c, m.content = some c → c ≠ [] → (mgrWrite bp m w).2.1.pathCalls = m.pathCalls + 1) := by
  refine ⟨?_, ?_, ?_, ?_⟩
  · intro c hc; simp [mgrRead, hc]
  · intro h
    cases hb : bp with
    | error e => simp [mgrRead, h, hb]
    | ok p =>
      cases hr : readFileSync p w with
      | error e => simp [mgrRead, h, hb, hr]
      | ok c => simp [mgrRead, h, hb, hr]
  · intro h; simp [mgrWrite, h]
  · intro c hc hne
    cases hb : bp with
    | error e => simp [mgrWrite, hc, hne, hb]
    | ok p => simp [mgrWrite, hc, hne, hb]

theorem C9_path_calls_per_operation_witness :
    mgrRead (.ok (chars "/f")) ⟨some (chars "x"), 1⟩ ⟨[], [], []⟩ =
      (.ok (chars "x"), ⟨some (chars "x"), 1⟩, ⟨[], [], []⟩) ∧
    (mgrWrite (.ok (chars "/f")) ⟨some (chars "x"), 1⟩ ⟨[], [], []⟩).2.1.pathCalls = 1 + 1 :=
  ⟨(C9_path_calls_per_operation (.ok (chars "/f")) ⟨some (chars "x"), 1⟩ ⟨[], [], []⟩).1
      (chars "x") rfl,
    (C9_path_calls_per_operation (.ok (chars "/f")) ⟨some (chars "x"), 1⟩ ⟨[], [], []⟩).2.2.2
      (chars "x") rfl (by decide)⟩


theorem digitChar_isDigit (n : Nat) (h : n < 10) : (Nat.digitChar n).isDigit = true := by
  interval_cases n <;> decide

theorem toDigitsCore_digits (fuel : Nat) :
    ∀ (n : Nat) (ds : List Char), (∀ c ∈ ds, c.isDigit = true) →
      ∀ c ∈ Nat.toDigitsCore 10 fuel n ds, c.isDigit = true := by
  induction fuel with
  | zero => intro n ds hds; exact hds
  | succ fuel ih =>
    intro n ds hds c hc
    simp only [Nat.toDigitsCore] at hc
    have hdig : (Nat.digitChar (n % 10)).isDigit = true :=
      digitChar_isDigit _ (Nat.mod_lt _ (by norm_num))
    by_cases hz : n / 10 = 0
    · rw [if_pos hz] at hc
      rcases List.mem_cons.mp hc with rfl | hmem
      · exact hdig
      · exact hds c hmem
    · rw [if_neg hz] at hc
      refine ih (n / 10) (Nat.digitChar (n % 10) :: ds) ?_ c hc
      intro x hx
      rcases List.mem_cons.mp hx with rfl | hmem
      · exact hdig
      · exact hds x hmem

theorem intToChars_nonneg_digits (n : Int) (h : 0 ≤ n) :
    ∀ c ∈ intToChars n, c.isDigit = true := by
  unfold intToChars
  rw [if_neg (by omega)]
  exact toDigitsCore_digits _ _ [] (by simp)

theorem isDigit_bounds (d : Char) (h : d.isDigit = true) : 48 ≤ d.toNat ∧ d.toNat ≤ 57 := by
  simp [Char.isDigit] at h
  obtain ⟨h1, h2⟩ := h
  exact ⟨h1, h2⟩

theorem isDigit_not_ws (d : Char) (h : d.isDigit = true) : isJsWhitespace d = false := by
  obtain ⟨h1, h2⟩ := isDigit_bounds d h
  simp [isJsWhitespace]
  repeat' apply And.intro
  all_goals (rintro rfl; simp_all)

theorem isDigit_ne_minus (d : Char) (h : d.isDigit = true) : d ≠ '-' := by
  obtain ⟨h1, h2⟩ := isDigit_bounds d h
  rintro rfl; simp_all

theorem isDigit_ne_plus (d : Char) (h : d.isDigit = true) : d ≠ '+' := by
  obtain ⟨h1, h2⟩ := isDigit_bounds d h
  rintro rfl; simp_all

theorem isDigit_ne_dollar (d : Char) (h : d.isDigit = true) : d ≠ '$' := by
  obtain ⟨h1, h2⟩ := isDigit_bounds d h
  rintro rfl; simp_all

theorem jsParseInt_digits (ds : List Char) (hne : ds ≠ []) (hd : ∀ c ∈ ds, c.isDigit = true) :
    jsParseInt ds = some (digitsToNat ds : Int) := by
  obtain ⟨d, ds2, rfl⟩ := List.exists_cons_of_ne_nil hne
  have hdd : d.isDigit = true := hd d (by simp)
  have hws : isJsWhitespace d = false := isDigit_not_ws d hdd
  have hall : (d :: ds2).takeWhile Char.isDigit = d :: ds2 :=
    List.takeWhile_eq_self_iff.mpr hd
  simp [jsParseInt, List.dropWhile_cons, hws, isDigit_ne_minus d hdd, isDigit_ne_plus d hdd,
    hall]

theorem getSubstitution_no_dollar (m pre post : List Char)
    (caps : List (Option (List Char))) (tmpl : List Char) (h : '$' ∉ tmpl) :
    getSubstitution m pre post caps tmpl = tmpl := by
  induction tmpl with
  | nil => rfl
  | cons c rest ih =>
    have hc : c ≠ '$' := fun hcc => h (by simp [hcc])
    have hr : '$' ∉ rest := fun hm => h (List.mem_cons_of_mem _ hm)
    rw [getSubstitution.eq_def]
    simp [hc, ih hr]

theorem scan_exists_input (t : LMatcher) (s : List Char) (r : RMatch)
    (h : scan t s = some r) :
    ∃ s2, t s2 = some (r.matched, r.cap, r.post) := by
  induction s generalizing r with
  | nil =>
    cases ht : t [] with
    | none => simp [scan, ht] at h
    | some x =>
      obtain ⟨m, c, rest⟩ := x
      simp [scan, ht] at h
      exact ⟨[], by rw [ht, ← h]⟩
  | cons ch tl ih =>
    cases ht : t (ch :: tl) with
    | some x =>
      obtain ⟨m, c, rest⟩ := x
      simp [scan, ht] at h
      exact ⟨ch :: tl, by rw [ht, ← h]⟩
    | none =>
      simp [scan, ht] at h
      obtain ⟨r2, hr2, hrr⟩ := h
      obtain ⟨s2, hs2⟩ := ih r2 hr2
      exact ⟨s2, by rw [hs2, ← hrr]⟩

theorem tryVersionCode_inv (s m rest : List Char) (cap : Option (List Char))
    (h : tryVersionCode s = some (m, cap, rest)) :
    ∃ ds, cap = some ds ∧ ds ≠ [] ∧ (∀ c ∈ ds, c.isDigit = true) ∧
      m = chars "versionCode " ++ ds := by
  simp only [tryVersionCode] at h
  cases hd : dropLit (chars "versionCode ") s with
  | none => rw [hd] at h; simp at h
  | some r =>
    rw [hd] at h
    dsimp only at h
    by_cases hds : r.takeWhile Char.isDigit = []
    · simp [hds] at h
    · rw [if_neg hds] at h
      simp only [Option.some.injEq, Prod.mk.injEq] at h
      exact ⟨r.takeWhile Char.isDigit, h.2.1.symm, hds,
        fun c hc => List.mem_takeWhile_imp hc, h.1.symm⟩

/-- C10 (implicit): whenever the Android counter pattern has a match in the
buffer, `bumpCode` never raises the invalid-versionCode error — the captured
digit string always parses to a number, the `isNaN` guard is unreachable, and
`bumpCode` returns `(current, current + 1)` after rewriting the matched
assignment. -/
theorem C10_bumpCode_match_never_invalid (buf : List Char) (rm : RMatch)
    (bp : Except JsErr (List Char)) (k : Nat) (w : World)
    (hscan : scan tryVersionCode buf = some rm) :
    ∃ ds v, rm.cap = some ds ∧ parseDecimal ds = some v ∧ 0 ≤ v ∧
      gradleBumpCode bp ⟨some buf, k⟩ w =
        (.ok (some v, some (v + 1)),
          ⟨some (rm.pre ++ chars "versionCode " ++ intToChars (v + 1) ++ rm.post), k⟩, w) := by
  obtain ⟨s2, ht⟩ := scan_exists_input _ _ _ hscan
  obtain ⟨ds, hcap, hne, hdig, hm⟩ := tryVersionCode_inv s2 _ _ _ ht
  have hparse : jsParseInt ds = some (digitsToNat ds : Int) := jsParseInt_digits ds hne hdig
  have hmf : matchFirst tryVersionCode buf = some ds := by simp [matchFirst, hscan, hcap]
  have hpos : (0 : Int) ≤ (digitsToNat ds : Int) := Int.natCast_nonneg _
  have hnd : '$' ∉ chars "versionCode " ++ intToChars ((digitsToNat ds : Int) + 1) := by
    intro hmem
    rcases List.mem_append.mp hmem with h1 | h2
    · exact absurd h1 (by decide)
    · exact isDigit_ne_dollar _ (intToChars_nonneg_digits _ (by omega) _ h2) rfl
  have hrepl :
      replaceFirst tryVersionCode
          (chars "versionCode " ++ intToChars ((digitsToNat ds : Int) + 1)) buf =
        rm.pre ++ (chars "versionCode " ++ intToChars ((digitsToNat ds : Int) + 1)) ++ rm.post := by
    simp only [replaceFirst, hscan]
    rw [getSubstitution_no_dollar _ _ _ _ _ hnd]
  refine ⟨ds, (digitsToNat ds : Int), hcap, hparse, hpos, ?_⟩
  simp [gradleBumpCode, mgrRead, hmf, parseDecimalOpt, parseDecimal, hparse, hrepl,
    jsNumToChars, List.append_assoc]

theorem C10_bumpCode_match_never_invalid_witness :
    scan tryVersionCode (chars "versionCode 23\n") =
      some ⟨[], chars "versionCode 23", some (chars "23"), chars "\n"⟩ ∧
    (∃ ds v, (some (chars "23") : Option (List Char)) = some ds ∧
      parseDecimal ds = some v ∧ 0 ≤ v ∧
      gradleBumpCode (.ok (chars "/g")) ⟨some (chars "versionCode 23\n"), 0⟩ ⟨[], [], []⟩ =
        (.ok (some v, some (v + 1)),
          ⟨some (([] : List Char) ++ chars "versionCode " ++ intToChars (v + 1) ++ chars "\n"),
            0⟩, ⟨[], [], []⟩)) :=
  ⟨by decide,
    C10_bumpCode_match_never_invalid (chars "versionCode 23\n")
      ⟨[], chars "versionCode 23", some (chars "23"), chars "\n"⟩
      (.ok (chars "/g")) 0 ⟨[], [], []⟩ (by decide)⟩


theorem takeWhile_middle (p : Char → Bool) (l r : List Char) (y : Char)
    (hl : ∀ x ∈ l, p x = true) (hy : p y = false) :
    (l ++ y :: r).takeWhile p = l ∧ (l ++ y :: r).dropWhile p = y :: r := by
  induction l with
  | nil => simp [List.takeWhile_cons, List.dropWhile_cons, hy]
  | cons a tl ih =>
    have ha : p a = true := hl a (by simp)
    obtain ⟨h1, h2⟩ := ih (fun x hx => hl x (by simp [hx]))
    simp [List.takeWhile_cons, List.dropWhile_cons, ha, h1, h2]

theorem scan_tryQuotes (q : Char) (inner : List Char) (hq : notQuote q = false)
    (hne : inner ≠ []) (hin : ∀ c ∈ inner, notQuote c = true) :
    scan tryQuotes (q :: inner ++ [q]) = some ⟨[q], inner, none, [q]⟩ := by
  obtain ⟨hmt, hmd⟩ := takeWhile_middle notQuote inner [] q hin hq
  have h1 : tryQuotes (inner ++ [q]) = some (inner, none, [q]) := by
    simp [tryQuotes, hmt, hmd, hne]
  obtain ⟨i0, itl, rfl⟩ := List.exists_cons_of_ne_nil hne
  have h0 : tryQuotes (q :: i0 :: (itl ++ [q])) = none := by
    simp [tryQuotes, List.takeWhile_cons, hq]
  have h1' : tryQuotes (i0 :: (itl ++ [q])) = some (i0 :: itl, none, [q]) := by
    simpa using h1
  simp [scan, h0, h1']

/-- C7 counterexample: three in-scope inputs on which `setVersionName` does
not rewrite the inner content between the quotes to `next`.  On
`versionName \'\'` (empty quoted value) the quote-content pattern has no
match and the buffer is returned unchanged; on `versionName "a\'b"` (inner
content containing the other kind of quote) only the first non-quote run is
replaced, yielding `versionName "1.2.4\'b"`; and with `next = "$&"` the
`$`-substitution re-inserts the matched inner content, leaving the buffer
unchanged. -/
theorem C7_setVersionName_counterexample :
    gradleSetVersionName (chars "1.2.4") (.ok (chars "/g"))
        ⟨some (chars "versionName " ++ ['\'', '\''] ++ chars "\n"), 0⟩ ⟨[], [], []⟩ =
      (.ok (['\'', '\''], chars "1.2.4"),
        ⟨some (chars "versionName " ++ ['\'', '\''] ++ chars "\n"), 0⟩, ⟨[], [], []⟩) ∧
    gradleSetVersionName (chars "1.2.4") (.ok (chars "/g"))
        ⟨some (chars "versionName \"a" ++ ['\''] ++ chars "b\"\n"), 0⟩ ⟨[], [], []⟩ =
      (.ok (chars "\"a" ++ ['\''] ++ chars "b\"", chars "1.2.4"),
        ⟨some (chars "versionName \"1.2.4" ++ ['\''] ++ chars "b\"\n"), 0⟩, ⟨[], [], []⟩) ∧
    gradleSetVersionName ['$', '&'] (.ok (chars "/g"))
        ⟨some (chars "versionName \"1.2.3\"\n"), 0⟩ ⟨[], [], []⟩ =
      (.ok (chars "\"1.2.3\"", ['$', '&']),
        ⟨some (chars "versionName \"1.2.3\"\n"), 0⟩, ⟨[], [], []⟩) := by decide

/-- C7 (amended): on a buffer whose first `versionName` match carries a
properly quoted value — non-empty inner content free of either quote
character — and for a replacement free of `$`, `setVersionName(next)`
rewrites only the inner content between the existing quote characters to
`next`, preserving the original quote character, and returns the pair
(current quoted value, next).  Outside those conditions the rewrite deviates,
as the counterexample shows. -/
theorem C7_setVersionName_preserves_quotes (buf pre inner post next : List Char) (q : Char)
    (bp : Except JsErr (List Char)) (k : Nat) (w : World)
    (hq : q = '\'' ∨ q = '"')
    (hscan : scan tryVersionName buf =
      some ⟨pre, chars "versionName " ++ (q :: inner ++ [q]), some (q :: inner ++ [q]), post⟩)
    (hne : inner ≠ [])
    (hin : ∀ c ∈ inner, c ≠ '\'' ∧ c ≠ '"')
    (hnd : '$' ∉ next) :
    gradleSetVersionName next bp ⟨some buf, k⟩ w =
      (.ok (q :: inner ++ [q], next),
        ⟨some (pre ++ chars "versionName " ++ (q :: next ++ [q]) ++ post), k⟩, w) := by
  have hqn : notQuote q = false := by rcases hq with rfl | rfl <;> decide
  have hinn : ∀ c ∈ inner, notQuote c = true := by
    intro c hc
    obtain ⟨h1, h2⟩ := hin c hc
    simp [notQuote, h1, h2]
  have hsq := scan_tryQuotes q inner hqn hne hinn
  have hmf : matchFirst tryVersionName buf = some (q :: inner ++ [q]) := by
    simp [matchFirst, hscan]
  have hnn : replaceFirst tryQuotes next (q :: inner ++ [q]) = q :: next ++ [q] := by
    simp only [replaceFirst, hsq]
    rw [getSubstitution_no_dollar _ _ _ _ _ hnd]
    simp
  have hqd : q ≠ '$' := by rcases hq with rfl | rfl <;> decide
  have hnd2 : '$' ∉ chars "versionName " ++ (q :: next ++ [q]) := by
    intro hmem
    rcases List.mem_append.mp hmem with h1 | h2
    · exact absurd h1 (by decide)
    · rcases List.mem_cons.mp h2 with heq | h3
      · exact hqd heq.symm
      · rcases List.mem_append.mp h3 with h4 | h5
        · exact hnd h4
        · simp at h5
          exact hqd h5.symm
  have hout : replaceFirst tryVersionName (chars "versionName " ++ (q :: next ++ [q])) buf
      = pre ++ (chars "versionName " ++ (q :: next ++ [q])) ++ post := by
    simp only [replaceFirst, hscan]
    rw [getSubstitution_no_dollar _ _ _ _ _ hnd2]
  simp only [gradleSetVersionName, mgrRead, hmf]
  rw [hnn, hout]
  simp [List.append_assoc]

theorem C7_setVersionName_preserves_quotes_witness :
    (scan tryVersionName (chars "versionName \"1.2.3\"\n") =
      some ⟨[], chars "versionName " ++ ('"' :: chars "1.2.3" ++ ['"']),
        some ('"' :: chars "1.2.3" ++ ['"']), chars "\n"⟩) ∧
    gradleSetVersionName (chars "1.2.4") (.ok (chars "/g"))
        ⟨some (chars "versionName \"1.2.3\"\n"), 0⟩ ⟨[], [], []⟩ =
      (.ok ('"' :: chars "1.2.3" ++ ['"'], chars "1.2.4"),
        ⟨some (([] : List Char) ++ chars "versionName " ++
          ('"' :: chars "1.2.4" ++ ['"']) ++ chars "\n"), 0⟩, ⟨[], [], []⟩) :=
  ⟨by decide,
    C7_setVersionName_preserves_quotes (chars "versionName \"1.2.3\"\n") []
      (chars "1.2.3") (chars "\n") (chars "1.2.4") '"' (.ok (chars "/g")) 0 ⟨[], [], []⟩
      (Or.inr rfl) (by decide) (by decide) (by decide) (by decide)⟩


def WEq (w w2 : World) : Prop := w2.files = w.files ∧ w2.writes = w.writes

theorem WEq_refl (w : World) : WEq w w := ⟨rfl, rfl⟩

theorem WEq_trans {w1 w2 w3 : World} (h1 : WEq w1 w2) (h2 : WEq w2 w3) : WEq w1 w3 :=
  ⟨h2.1.trans h1.1, h2.2.trans h1.2⟩

theorem consoleLog_weq (l : List Char) (w : World) : WEq w (consoleLog l w) := ⟨rfl, rfl⟩

theorem WEq_of_eq {w w2 : World} (h : w2 = w) : WEq w w2 := ⟨by rw [h], by rw [h]⟩

theorem mgrRead_world (bp : Except JsErr (List Char)) (m : Mgr) (w : World) :
    (mgrRead bp m w).2.2 = w := by
  rcases hm : m.content with _ | c
  · rcases hb : bp with e | pth
    · simp [mgrRead, hm, hb]
    · rcases hf : readFileSync pth w with e | c
      · simp [mgrRead, hm, hb, hf]
      · simp [mgrRead, hm, hb, hf]
  · simp [mgrRead, hm]

theorem pbxBumpProjectVersion_world (bp : Except JsErr (List Char)) (m : Mgr) (w : World) :
    (pbxBumpProjectVersion bp m w).2.2 = w := by
  unfold pbxBumpProjectVersion
  rcases hr : mgrRead bp m w with ⟨r, m2, w2⟩
  have hw : w2 = w := by have := mgrRead_world bp m w; rw [hr] at this; exact this
  cases r with
  | error e => simpa using hw
  | ok c => simpa using hw

theorem pbxSetMarketingVersion_world (v : List Char) (bp : Except JsErr (List Char))
    (m : Mgr) (w : World) : (pbxSetMarketingVersion v bp m w).2.2 = w := by
  unfold pbxSetMarketingVersion
  rcases hr : mgrRead bp m w with ⟨r, m2, w2⟩
  have hw : w2 = w := by have := mgrRead_world bp m w; rw [hr] at this; exact this
  cases r with
  | error e => simpa using hw
  | ok c => simpa using hw

theorem gradleBumpCode_world (bp : Except JsErr (List Char)) (m : Mgr) (w : World) :
    (gradleBumpCode bp m w).2.2 = w := by
  unfold gradleBumpCode
  rcases hr : mgrRead bp m w with ⟨r, m2, w2⟩
  have hw : w2 = w := by have := mgrRead_world bp m w; rw [hr] at this; exact this
  cases r with
  | error e => simpa using hw
  | ok c =>
    cases hj : Option.map (fun x => x + 1) (parseDecimalOpt (matchFirst tryVersionCode c)) with
    | none => simp [hj, hw]
    | some v => simp [hj, hw]

theorem gradleSetVersionName_world (v : List Char) (bp : Except JsErr (List Char))
    (m : Mgr) (w : World) : (gradleSetVersionName v bp m w).2.2 = w := by
  unfold gradleSetVersionName
  rcases hr : mgrRead bp m w with ⟨r, m2, w2⟩
  have hw : w2 = w := by have := mgrRead_world bp m w; rw [hr] at this; exact this
  cases r with
  | error e => simpa using hw
  | ok c =>
    cases hme : matchFirst tryVersionName c with
    | none => simp [hme, hw]
    | some cur => simp [hme, hw]

theorem pkgRead_world (bp : List Char) (pm : PkgMgr) (w : World) :
    (pkgRead bp pm w).2.2 = w := by
  rcases hm : pm.content with _ | c
  · rcases hl : lookupFile w.files bp with _ | raw
    · simp [pkgRead, hm, hl]
    · rcases hp : parsePkgJson raw with e | pkg
      · simp [pkgRead, hm, hl, hp]
      · simp [pkgRead, hm, hl, hp]
  · simp [pkgRead, hm]

theorem pkgGetVersion_world (bp : List Char) (pm : PkgMgr) (w : World) :
    (pkgGetVersion bp pm w).2.2 = w := by
  unfold pkgGetVersion
  rcases hr : pkgRead bp pm w with ⟨r, pm2, w2⟩
  have hw : w2 = w := by have := pkgRead_world bp pm w; rw [hr] at this; exact this
  cases r with
  | error e => simpa using hw
  | ok c => simpa using hw

theorem pkgSetVersion_world (v : List Char) (bp : List Char) (pm : PkgMgr) (w : World) :
    (pkgSetVersion v bp pm w).2.2 = w := by
  unfold pkgSetVersion
  rcases hr : pkgGetVersion bp pm w with ⟨r, pm2, w2⟩
  have hw : w2 = w := by have := pkgGetVersion_world bp pm w; rw [hr] at this; exact this
  cases r with
  | error e => simpa using hw
  | ok c => simpa using hw

theorem pfmSyncSemverPkg_weq (v : List Char) (p : PFM) (w : World) :
    WEq w (pfmSyncSemverPkg v p w).2.2 := by
  unfold pfmSyncSemverPkg
  rcases hr : pkgSetVersion v (pkgPath p) p.packageJSON w with ⟨r, pm2, w2⟩
  have hw : w2 = w := by
    have := pkgSetVersion_world v (pkgPath p) p.packageJSON w; rw [hr] at this; exact this
  cases r with
  | error e => exact WEq_of_eq hw
  | ok c => exact WEq_trans (WEq_of_eq hw) (consoleLog_weq _ w2)

theorem pfmSyncSemverAndroid_weq (v : List Char) (sk : List (List Char)) (p : PFM) (w : World) :
    WEq w (pfmSyncSemverAndroid v sk p w).2.2 := by
  unfold pfmSyncSemverAndroid
  by_cases hsk : chars "android" ∈ sk
  · simp only [if_pos hsk]
    exact pfmSyncSemverPkg_weq v p w
  · simp only [if_neg hsk]
    rcases hr : gradleSetVersionName v p.configs.buildGradlePath p.buildGradle w with ⟨r, m2, w2⟩
    have hw : w2 = w := by
      have := gradleSetVersionName_world v p.configs.buildGradlePath p.buildGradle w
      rw [hr] at this; exact this
    cases r with
    | error e => exact WEq_of_eq hw
    | ok c =>
      exact WEq_trans (WEq_of_eq hw)
        (WEq_trans (consoleLog_weq _ w2) (pfmSyncSemverPkg_weq v _ _))

theorem pfmSyncSemver_weq (v : List Char) (p : PFM) (w : World) :
    WEq w (pfmSyncSemver v p w).2.2 := by
  unfold pfmSyncSemver
  by_cases hsk : chars "ios" ∈ p.configs.skipSemverFor
  · simp only [if_pos hsk]
    exact pfmSyncSemverAndroid_weq v _ p w
  · simp only [if_neg hsk]
    rcases hr : pbxSetMarketingVersion v p.configs.pbxprojPath p.pbx w with ⟨r, m2, w2⟩
    have hw : w2 = w := by
      have := pbxSetMarketingVersion_world v p.configs.pbxprojPath p.pbx w
      rw [hr] at this; exact this
    cases r with
    | error e => exact WEq_of_eq hw
    | ok c =>
      exact WEq_trans (WEq_of_eq hw)
        (WEq_trans (consoleLog_weq _ w2) (pfmSyncSemverAndroid_weq v _ _ _))

theorem pfmBumpCodesAndroid_weq (sk : List (List Char)) (p : PFM) (w : World) :
    WEq w (pfmBumpCodesAndroid sk p w).2.2 := by
  unfold pfmBumpCodesAndroid
  by_cases hsk : chars "android" ∈ sk
  · simp only [if_pos hsk]
    exact WEq_refl w
  · simp only [if_neg hsk]
    rcases hr : gradleBumpCode p.configs.buildGradlePath p.buildGradle w with ⟨r, m2, w2⟩
    have hw : w2 = w := by
      have := gradleBumpCode_world p.configs.buildGradlePath p.buildGradle w
      rw [hr] at this; exact this
    cases r with
    | error e => exact WEq_of_eq hw
    | ok c => exact WEq_trans (WEq_of_eq hw) (consoleLog_weq _ w2)

theorem pfmBumpCodes_weq (p : PFM) (w : World) : WEq w (pfmBumpCodes p w).2.2 := by
  unfold pfmBumpCodes
  by_cases hsk : chars "ios" ∈ p.configs.skipCodeFor
  · simp only [if_pos hsk]
    exact pfmBumpCodesAndroid_weq _ p w
  · simp only [if_neg hsk]
    rcases hr : pbxBumpProjectVersion p.configs.pbxprojPath p.pbx w with ⟨r, m2, w2⟩
    have hw : w2 = w := by
      have := pbxBumpProjectVersion_world p.configs.pbxprojPath p.pbx w
      rw [hr] at this; exact this
    cases r with
    | error e => exact WEq_of_eq hw
    | ok c =>
      exact WEq_trans (WEq_of_eq hw)
        (WEq_trans (consoleLog_weq _ w2) (pfmBumpCodesAndroid_weq _ _ _))

theorem pfmDryRunPhase1_weq (p : PFM) (w : World) : WEq w (pfmDryRunPhase1 p w).2.2 := by
  unfold pfmDryRunPhase1
  rcases hr : pkgGetVersion (pkgPath p) p.packageJSON w with ⟨r, pm2, w2⟩
  have hw : w2 = w := by
    have := pkgGetVersion_world (pkgPath p) p.packageJSON w; rw [hr] at this; exact this
  cases r with
  | error e => exact WEq_of_eq hw
  | ok cur =>
    dsimp only
    rcases hj : jsNext p.configs cur with e | next
    · exact WEq_of_eq hw
    · by_cases hsk : chars "all" ∈ p.configs.skipCodeFor
      · simp only [if_pos hsk]
        exact WEq_of_eq hw
      · simp only [if_neg hsk]
        rcases hb : pfmBumpCodes { p with packageJSON := pm2 } w2 with ⟨rb, p3, w3⟩
        have hw3 : WEq w2 w3 := by
          have := pfmBumpCodes_weq { p with packageJSON := pm2 } w2
          rw [hb] at this; exact this
        cases rb with
        | error e => exact WEq_trans (WEq_of_eq hw) hw3
        | ok u => exact WEq_trans (WEq_of_eq hw) hw3

theorem pfmDryRun_weq (p : PFM) (w : World) : WEq w (pfmDryRun p w).2.2 := by
  unfold pfmDryRun
  rcases h1 : pfmDryRunPhase1 p w with ⟨r, p2, w2⟩
  have hw2 : WEq w w2 := by
    have := pfmDryRunPhase1_weq p w; rw [h1] at this; exact this
  cases r with
  | error e => exact hw2
  | ok next =>
    by_cases hsk : chars "all" ∈ p.configs.skipSemverFor
    · simp only [if_pos hsk]
      exact hw2
    · simp only [if_neg hsk]
      by_cases hty : jsFalsyStr p.configs.type
      · simp only [if_pos hty]
        exact hw2
      · simp only [if_neg hty]
        rcases hs : pfmSyncSemver next p2 w2 with ⟨rs, p3, w3⟩
        have hw3 : WEq w2 w3 := by
          have := pfmSyncSemver_weq next p2 w2; rw [hs] at this; exact this
        cases rs with
        | error e => exact WEq_trans hw2 hw3
        | ok u => exact WEq_trans hw2 hw3

/-- C5: `dryRun()` mutates only in-memory state — whatever the configuration,
manager states and initial file contents, and whether it succeeds or fails,
it performs no `writeFile` call and every on-disk file is left exactly as it
was. -/
theorem C5_dryRun_no_disk_writes (p : PFM) (w : World) :
    (pfmDryRun p w).2.2.files = w.files ∧ (pfmDryRun p w).2.2.writes = w.writes :=
  pfmDryRun_weq p w


/-- C3: for every configuration whose release kind is absent and whose
skip-version-sync set does not contain "all", `dryRun()` never succeeds and
never reaches `syncSemver` — its final state is exactly the state left by the
read/compute/bump phase — and whenever that phase itself succeeds the failure
is precisely the missing-release-kind error "SemVer type not specified". -/
theorem C3_dryRun_missing_kind (cfg : Configs) (w : World)
    (ht : cfg.type = none) (hs : chars "all" ∉ cfg.skipSemverFor) :
    (∃ e, (pfmDryRun (apiVersioner cfg) w).1 = .error e) ∧
    (pfmDryRun (apiVersioner cfg) w).2 = (pfmDryRunPhase1 (apiVersioner cfg) w).2 ∧
    (∀ nx p2 w2, pfmDryRunPhase1 (apiVersioner cfg) w = (.ok nx, p2, w2) →
      pfmDryRun (apiVersioner cfg) w =
        (.error (.error (chars "SemVer type not specified")), p2, w2)) := by
  have hty : jsFalsyStr (apiVersioner cfg).configs.type := by
    simp [apiVersioner, jsFalsyStr, ht]
  have hsk : chars "all" ∉ (apiVersioner cfg).configs.skipSemverFor := by
    simpa [apiVersioner] using hs
  rcases h1 : pfmDryRunPhase1 (apiVersioner cfg) w with ⟨r, p2, w2⟩
  cases r with
  | error e =>
    have hdr : pfmDryRun (apiVersioner cfg) w = (.error e, p2, w2) := by
      unfold pfmDryRun
      rw [h1]
    refine ⟨⟨e, by rw [hdr]⟩, by rw [hdr], ?_⟩
    intro nx p3 w3 hcontra
    simp at hcontra
  | ok nx =>
    have hdr : pfmDryRun (apiVersioner cfg) w =
        (.error (.error (chars "SemVer type not specified")), p2, w2) := by
      unfold pfmDryRun
      rw [h1]
      dsimp only
      rw [if_neg hsk, if_pos hty]
    refine ⟨⟨_, by rw [hdr]⟩, by rw [hdr], ?_⟩
    intro nx2 p3 w3 heq
    simp only [Prod.mk.injEq, Except.ok.injEq] at heq
    rw [hdr, heq.2.1, heq.2.2]

/-- The demonstration configuration with no release kind supplied. -/
def demoConfigsNoKind : Configs :=
  ⟨none, none, [], [], none, chars "/app",
    .ok (chars "/ios/project.pbxproj"), .ok (chars "/android/app/build.gradle")⟩

theorem C3_dryRun_missing_kind_witness :
    (demoConfigsNoKind.type = none ∧ chars "all" ∉ demoConfigsNoKind.skipSemverFor) ∧
    (pfmDryRun (apiVersioner demoConfigsNoKind) demoWorld).2 =
      (pfmDryRunPhase1 (apiVersioner demoConfigsNoKind) demoWorld).2 :=
  ⟨⟨rfl, by decide⟩,
    (C3_dryRun_missing_kind demoConfigsNoKind demoWorld rfl (by decide)).2.1⟩


def retype (t : Option (List Char)) (p : PFM) : PFM :=
  { p with configs := { p.configs with type := t } }

theorem pkgPath_retype (t : Option (List Char)) (p : PFM) :
    pkgPath (retype t p) = pkgPath p := rfl

theorem retype_packageJSON (t : Option (List Char)) (p : PFM) :
    (retype t p).packageJSON = p.packageJSON := rfl

theorem retype_pbx (t : Option (List Char)) (p : PFM) : (retype t p).pbx = p.pbx := rfl

theorem retype_buildGradle (t : Option (List Char)) (p : PFM) :
    (retype t p).buildGradle = p.buildGradle := rfl

theorem retype_skipSemverFor (t : Option (List Char)) (p : PFM) :
    (retype t p).configs.skipSemverFor = p.configs.skipSemverFor := rfl

theorem retype_skipCodeFor (t : Option (List Char)) (p : PFM) :
    (retype t p).configs.skipCodeFor = p.configs.skipCodeFor := rfl

theorem retype_semver (t : Option (List Char)) (p : PFM) :
    (retype t p).configs.semver = p.configs.semver := rfl

theorem retype_pbxprojPath (t : Option (List Char)) (p : PFM) :
    (retype t p).configs.pbxprojPath = p.configs.pbxprojPath := rfl

theorem retype_buildGradlePath (t : Option (List Char)) (p : PFM) :
    (retype t p).configs.buildGradlePath = p.configs.buildGradlePath := rfl

theorem retype_type (t : Option (List Char)) (p : PFM) :
    (retype t p).configs.type = t := rfl

theorem pfmSyncSemverPkg_retype (v : List Char) (t : Option (List Char)) (p : PFM) (w : World) :
    pfmSyncSemverPkg v (retype t p) w =
      ((pfmSyncSemverPkg v p w).1, retype t (pfmSyncSemverPkg v p w).2.1,
        (pfmSyncSemverPkg v p w).2.2) := by
  unfold pfmSyncSemverPkg
  rw [pkgPath_retype, retype_packageJSON]
  rcases hr : pkgSetVersion v (pkgPath p) p.packageJSON w with ⟨r, pm2, w2⟩
  cases r with
  | error e => rfl
  | ok c => obtain ⟨cur, nxt⟩ := c; rfl

theorem pfmSyncSemverAndroid_retype (v : List Char) (sk : List (List Char))
    (t : Option (List Char)) (p : PFM) (w : World) :
    pfmSyncSemverAndroid v sk (retype t p) w =
      ((pfmSyncSemverAndroid v sk p w).1, retype t (pfmSyncSemverAndroid v sk p w).2.1,
        (pfmSyncSemverAndroid v sk p w).2.2) := by
  unfold pfmSyncSemverAndroid
  by_cases hsk : chars "android" ∈ sk
  · rw [if_pos hsk, if_pos hsk, pfmSyncSemverPkg_retype]
  · rw [if_neg hsk, if_neg hsk, retype_buildGradlePath, retype_buildGradle]
    rcases hr : gradleSetVersionName v p.configs.buildGradlePath p.buildGradle w with ⟨r, m2, w2⟩
    cases r with
    | error e => rfl
    | ok c =>
      obtain ⟨cur, nxt⟩ := c
      show pfmSyncSemverPkg v { retype t p with buildGradle := m2 } _ = _
      have : ({ retype t p with buildGradle := m2 } : PFM) =
          retype t { p with buildGradle := m2 } := rfl
      rw [this, pfmSyncSemverPkg_retype]

theorem pfmSyncSemver_retype (v : List Char) (t : Option (List Char)) (p : PFM) (w : World) :
    pfmSyncSemver v (retype t p) w =
      ((pfmSyncSemver v p w).1, retype t (pfmSyncSemver v p w).2.1,
        (pfmSyncSemver v p w).2.2) := by
  unfold pfmSyncSemver
  rw [retype_skipSemverFor]
  by_cases hsk : chars "ios" ∈ p.configs.skipSemverFor
  · rw [if_pos hsk, if_pos hsk, pfmSyncSemverAndroid_retype]
  · rw [if_neg hsk, if_neg hsk, retype_pbxprojPath, retype_pbx]
    rcases hr : pbxSetMarketingVersion v p.configs.pbxprojPath p.pbx w with ⟨r, m2, w2⟩
    cases r with
    | error e => rfl
    | ok c =>
      obtain ⟨cur, nxt⟩ := c
      show pfmSyncSemverAndroid v _ { retype t p with pbx := m2 } _ = _
      have : ({ retype t p with pbx := m2 } : PFM) = retype t { p with pbx := m2 } := rfl
      rw [this, pfmSyncSemverAndroid_retype]

theorem pfmBumpCodesAndroid_retype (sk : List (List Char)) (t : Option (List Char))
    (p : PFM) (w : World) :
    pfmBumpCodesAndroid sk (retype t p) w =
      ((pfmBumpCodesAndroid sk p w).1, retype t (pfmBumpCodesAndroid sk p w).2.1,
        (pfmBumpCodesAndroid sk p w).2.2) := by
  unfold pfmBumpCodesAndroid
  by_cases hsk : chars "android" ∈ sk
  · rw [if_pos hsk, if_pos hsk]
  · rw [if_neg hsk, if_neg hsk, retype_buildGradlePath, retype_buildGradle]
    rcases hr : gradleBumpCode p.configs.buildGradlePath p.buildGradle w with ⟨r, m2, w2⟩
    cases r with
    | error e => rfl
    | ok c => obtain ⟨cur, nxt⟩ := c; rfl

theorem pfmBumpCodes_retype (t : Option (List Char)) (p : PFM) (w : World) :
    pfmBumpCodes (retype t p) w =
      ((pfmBumpCodes p w).1, retype t (pfmBumpCodes p w).2.1, (pfmBumpCodes p w).2.2) := by
  unfold pfmBumpCodes
  rw [retype_skipCodeFor]
  by_cases hsk : chars "ios" ∈ p.configs.skipCodeFor
  · rw [if_pos hsk, if_pos hsk, pfmBumpCodesAndroid_retype]
  · rw [if_neg hsk, if_neg hsk, retype_pbxprojPath, retype_pbx]
    rcases hr : pbxBumpProjectVersion p.configs.pbxprojPath p.pbx w with ⟨r, m2, w2⟩
    cases r with
    | error e => rfl
    | ok c =>
      obtain ⟨cur, nxt⟩ := c
      show pfmBumpCodesAndroid _ { retype t p with pbx := m2 } _ = _
      have : ({ retype t p with pbx := m2 } : PFM) = retype t { p with pbx := m2 } := rfl
      rw [this, pfmBumpCodesAndroid_retype]


theorem pfmDryRunPhase1_retype (t : Option (List Char)) (p : PFM) (w : World)
    (sv : List Char) (hsv : p.configs.semver = some sv) :
    pfmDryRunPhase1 (retype t p) w =
      ((pfmDryRunPhase1 p w).1, retype t (pfmDryRunPhase1 p w).2.1,
        (pfmDryRunPhase1 p w).2.2) := by
  unfold pfmDryRunPhase1
  rw [pkgPath_retype, retype_packageJSON]
  rcases hr : pkgGetVersion (pkgPath p) p.packageJSON w with ⟨r, pm2, w2⟩
  cases r with
  | error e => rfl
  | ok cur =>
    dsimp only
    have hj : jsNext (retype t p).configs cur = jsNext p.configs cur := by
      unfold jsNext
      rw [retype_semver, hsv]
    rw [hj]
    rcases hjn : jsNext p.configs cur with e | nx
    · rfl
    · dsimp only
      rw [retype_skipCodeFor]
      by_cases hsk : chars "all" ∈ p.configs.skipCodeFor
      · rw [if_pos hsk, if_pos hsk]
        rfl
      · rw [if_neg hsk, if_neg hsk]
        have hre : ({ retype t p with packageJSON := pm2 } : PFM) =
            retype t { p with packageJSON := pm2 } := rfl
        rw [hre, pfmBumpCodes_retype]
        rcases hb : pfmBumpCodes { p with packageJSON := pm2 } w2 with ⟨rb, p3, w3⟩
        cases rb with
        | error e => rfl
        | ok u => rfl

theorem pfmDryRun_retype (t : Option (List Char)) (p : PFM) (w : World) (sv : List Char)
    (hsv : p.configs.semver = some sv) (hft : ¬jsFalsyStr t)
    (hfp : ¬jsFalsyStr p.configs.type) :
    pfmDryRun (retype t p) w =
      ((pfmDryRun p w).1.map (retype t), retype t (pfmDryRun p w).2.1,
        (pfmDryRun p w).2.2) := by
  unfold pfmDryRun
  rw [pfmDryRunPhase1_retype t p w sv hsv]
  rcases h1 : pfmDryRunPhase1 p w with ⟨r, p2, w2⟩
  cases r with
  | error e => rfl
  | ok nx =>
    dsimp only
    rw [retype_skipSemverFor]
    by_cases hsk : chars "all" ∈ p.configs.skipSemverFor
    · rw [if_pos hsk, if_pos hsk]
      rfl
    · rw [if_neg hsk, if_neg hsk, retype_type]
      rw [if_neg hft, if_neg hfp, pfmSyncSemver_retype]
      rcases hs : pfmSyncSemver nx p2 w2 with ⟨rs, p3, w3⟩
      cases rs with
      | error e => rfl
      | ok u => rfl

def dryRunObs (r : Except JsErr PFM × PFM × World) :
    Except JsErr Unit × Mgr × Mgr × PkgMgr × World :=
  (r.1.map fun _ => (), r.2.1.pbx, r.2.1.buildGradle, r.2.1.packageJSON, r.2.2)

/-- C4 (amended): when an explicit target version override (`semver`) is
supplied, the target version and the whole observable outcome of `dryRun()`
(result kind, manager states, world) are identical for any two *supplied,
non-empty* release-kind values, recognized or not — but an absent (or empty)
kind is not covered: the missing-kind check fires even with an override, so
the override alone does not determine the outcome in that case. -/
theorem C4_override_same_outcome (cfg : Configs) (w : World) (t1 t2 : Option (List Char)) (sv : List Char)
    (hsv : cfg.semver = some sv) (h1 : ¬jsFalsyStr t1) (h2 : ¬jsFalsyStr t2) :
    dryRunObs (pfmDryRun (apiVersioner { cfg with type := t1 }) w) =
      dryRunObs (pfmDryRun (apiVersioner { cfg with type := t2 }) w) := by
  have e1 : apiVersioner { cfg with type := t1 } =
      retype t1 (apiVersioner { cfg with type := t2 }) := rfl
  have hsv2 : (apiVersioner { cfg with type := t2 }).configs.semver = some sv := hsv
  have hfp : ¬jsFalsyStr (apiVersioner { cfg with type := t2 }).configs.type := h2
  rw [e1, pfmDryRun_retype t1 _ w sv hsv2 h1 hfp]
  rcases hd : pfmDryRun (apiVersioner { cfg with type := t2 }) w with ⟨r, p2, w2⟩
  cases r with
  | error e => rfl
  | ok q => rfl


/-- Demonstration configurations with a `semver` override: identical except
for the release kind (`major` vs absent). -/
def demoConfigsOverrideA : Configs :=
  ⟨some (chars "major"), some (chars "2.0.0"), [], [chars "all"], none, chars "/app",
    .ok (chars "/ios/project.pbxproj"), .ok (chars "/android/app/build.gradle")⟩

def demoConfigsOverrideB : Configs :=
  ⟨none, some (chars "2.0.0"), [], [chars "all"], none, chars "/app",
    .ok (chars "/ios/project.pbxproj"), .ok (chars "/android/app/build.gradle")⟩

/-- C4 counterexample: with the same `semver` override and the same files,
`dryRun()` succeeds when the release kind is `major` but fails with
"SemVer type not specified" when the kind is absent — the release kind is
*not* ignored entirely, and "no explicit override given" is not the only
condition for the missing-kind error. -/
theorem C4_override_counterexample :
    (pfmDryRun (apiVersioner demoConfigsOverrideA) demoWorld).1.isOk = true ∧
    (pfmDryRun (apiVersioner demoConfigsOverrideB) demoWorld).1 =
      .error (.error (chars "SemVer type not specified")) := by decide

theorem C4_override_same_outcome_witness :
    (demoConfigsOverrideA.semver = some (chars "2.0.0") ∧
      ¬jsFalsyStr (some (chars "major")) ∧ ¬jsFalsyStr (some (chars "foo"))) ∧
    dryRunObs (pfmDryRun (apiVersioner
        { demoConfigsOverrideA with type := some (chars "major") }) demoWorld) =
      dryRunObs (pfmDryRun (apiVersioner
        { demoConfigsOverrideA with type := some (chars "foo") }) demoWorld) :=
  ⟨⟨rfl, by decide, by decide⟩,
    C4_override_same_outcome demoConfigsOverrideA demoWorld (some (chars "major"))
      (some (chars "foo")) (chars "2.0.0") rfl (by decide) (by decide)⟩
